import Mathlib

/-!
Verification development for the tvil_parser repository.

The pipeline has three stages (src/tvil_hotels.py, src/tvil_rooms.py,
src/tvil_statistic.py).  The definitions below are a shallow embedding of the
pure computational core of each stage: free-text numeric extraction, the
pagination loop driven by `links.next`, room-offer extraction from the
calculation response, and the per-hotel statistics fold.  Network transport,
Playwright, CSV file I/O and logging are external collaborators; their
results enter the embedding as explicit values (page fixtures, already-read
CSV rows).  Python machine integers are modelled as `Int`, Python floats on
the decimal literals that occur in these tables as `ℚ`, and fallible parses
as `Option`.
-/

namespace Tvil

/-! ### Decimal rendering (Python `str` on numbers) -/

/-- Digits of a natural number, most significant first; fuel-structural so
that concrete evaluation reduces in the kernel.  Called with fuel `n + 1`,
which is always enough. -/
def natDigs : Nat → Nat → List Char
  | 0, _ => []
  | fuel + 1, n =>
    if n < 10 then [Nat.digitChar n]
    else natDigs fuel (n / 10) ++ [Nat.digitChar (n % 10)]

/-- Decimal rendering of a natural number, as Python `str` on a nonnegative
integer. -/
def natStr (n : Nat) : String := String.mk (natDigs (n + 1) n)

/-- Decimal rendering of an integer, as Python `str` on an `int`. -/
def intStr (n : Int) : String :=
  if n < 0 then "-" ++ natStr n.natAbs else natStr n.natAbs

/-- Numeric value of an all-digit character list, as Python `int` applied to
a string of ASCII digits. -/
def natOfDigits (ds : List Char) : Nat :=
  ds.foldl (fun n c => n * 10 + (c.toNat - Char.toNat '0')) 0

/-! ### Python numeric parsing as used by tvil_statistic.py

The aggregator parses CSV string fields with the idiom
`int(s) if s else 0` / `float(s)` inside a `try`.  `pyIntOpt` models
that idiom: the empty string short-circuits to `0` without parsing, a
non-empty string parses as a (possibly signed) decimal integer, and a parse
failure (the `except` branch) is `none`.  `pyFloatOpt` models Python
`float()` on plain decimal literals (optional sign, digits, optional
fractional part), which is the shape of every price written by
tvil_rooms.py; exotic float syntax (exponents, inf/nan, surrounding
whitespace) is outside the data produced by this pipeline and is not
modelled. -/

def pyIntOpt (s : String) : Option Int :=
  if s = "" then some 0 else s.toInt?

/-- Value of `int(s) if s else 0` with the exception branch collapsing to
the accumulator-unchanged (i.e. zero-contribution) case. -/
def pyIntD (s : String) : Int := (pyIntOpt s).getD 0

/-- Split a character list at the first dot, if any. -/
def splitDot : List Char → List Char × Option (List Char)
  | [] => ([], none)
  | c :: r =>
    if c = '.' then ([], some r)
    else
      let p := splitDot r
      (c :: p.1, p.2)

/-- Python `float()` on a plain decimal literal, as a rational. -/
def pyFloatOpt (s : String) : Option ℚ :=
  match s.data with
  | [] => none
  | c :: r =>
    let sgn : ℚ := if c = '-' then -1 else 1
    let body := if c = '-' ∨ c = '+' then r else c :: r
    let p := splitDot body
    match p.2 with
    | none =>
      if p.1 ≠ [] ∧ p.1.all Char.isDigit then
        some (sgn * (natOfDigits p.1 : ℚ))
      else none
    | some fp =>
      if (p.1 ++ fp) ≠ [] ∧ p.1.all Char.isDigit ∧ fp.all Char.isDigit then
        some (sgn * ((natOfDigits p.1 : ℚ) +
          (natOfDigits fp : ℚ) / ((10 : ℚ) ^ fp.length)))
      else none

/-! ### Rounding and formatting (Python `round(x, 2)` and `f-string .2f`)

Both round half-to-even at two decimal places.  They are modelled exactly on
rationals; the binary-float representation error of CPython is below the
granularity of anything this pipeline observes. -/

/-- Round a rational to the nearest integer, ties to even. -/
def roundHalfEvenInt (q : ℚ) : Int :=
  let f : Int := q.floor
  let r : ℚ := q - (f : ℚ)
  if r < 1 / 2 then f
  else if 1 / 2 < r then f + 1
  else if f % 2 = 0 then f else f + 1

/-- Python `round(q, 2)`. -/
def roundTo2 (q : ℚ) : ℚ := ((roundHalfEvenInt (q * 100) : ℚ)) / 100

/-- Python `f-string` formatting with `.2f`: fixed two decimal places. -/
def format2 (q : ℚ) : String :=
  let n := roundHalfEvenInt (q * 100)
  let a := n.natAbs
  (if n < 0 then "-" else "") ++ natStr (a / 100) ++ "." ++
    String.mk [Nat.digitChar (a % 100 / 10), Nat.digitChar (a % 10)]

/-! ### Free-Text Extractor (src/tvil_rooms.py)

`TvilRoomsDailyParser._extract_all_rooms` searches for the regular
expression `Свободны \d+ из (\d+)` and returns the captured total as an
integer, defaulting to 0.  `TvilRoomsDailyParser._parse_room_capacity`
searches for `(\d+)-местный` and returns the captured digit string,
defaulting to the empty string.  Both patterns are literal text around
greedy digit runs followed by a non-digit, so backtracking never changes
the match: the deterministic scanners below implement exactly `re.search`
on them.  Python `\d` also matches non-ASCII decimal digits; the inputs of
this pipeline contain only ASCII digits and `Char.isDigit` is used. -/

/-- Maximal leading digit run of a character list, with the rest. -/
def takeDigits : List Char → List Char × List Char
  | [] => ([], [])
  | c :: r =>
    if c.isDigit then
      let p := takeDigits r
      (c :: p.1, p.2)
    else ([], c :: r)

/-- Remove an expected literal from the front of a character list. -/
def stripLit : List Char → List Char → Option (List Char)
  | [], cs => some cs
  | _ :: _, [] => none
  | p :: ps, c :: cs => if c = p then stripLit ps cs else none

/-- The literal before the free count in the availability text. -/
def litSvobodny : List Char := "Свободны ".data

/-- The literal between the free count and the total in the availability
text. -/
def litIz : List Char := " из ".data

/-- The literal after the capacity digits in a room description. -/
def litMestny : List Char := "-местный".data

/-- Attempt the availability pattern at the start of the list, returning the
captured (maximal) total-digit run. -/
def matchAvailAt (cs : List Char) : Option (List Char) :=
  (stripLit litSvobodny cs).bind (fun cs1 =>
    if (takeDigits cs1).1 = [] then none
    else
      (stripLit litIz (takeDigits cs1).2).bind (fun cs2 =>
        if (takeDigits cs2).1 = [] then none else some (takeDigits cs2).1))

/-- Leftmost occurrence of the availability pattern, as `re.search`. -/
def searchAvail : List Char → Option (List Char)
  | [] => none
  | c :: rest => (matchAvailAt (c :: rest)).orElse (fun _ => searchAvail rest)

/-- Shallow embedding of `TvilRoomsDailyParser._extract_all_rooms` (the
spec's `extract_total_from_availability_text`).  The argument is `Option`
to cover the Python `None` input, handled by `if not text`. -/
def extract_all_rooms (text : Option String) : Nat :=
  match text with
  | none => 0
  | some s =>
    if s = "" then 0
    else
      match searchAvail s.data with
      | some ms => natOfDigits ms
      | none => 0

/-- Attempt the capacity pattern at the start of the list: a nonempty digit
run directly followed by the literal. -/
def matchCapAt (cs : List Char) : Option (List Char) :=
  if (takeDigits cs).1 = [] then none
  else
    (stripLit litMestny (takeDigits cs).2).bind
      (fun _ => some (takeDigits cs).1)

/-- Leftmost occurrence of the capacity pattern, as `re.search`. -/
def searchCap : List Char → Option (List Char)
  | [] => none
  | c :: rest => (matchCapAt (c :: rest)).orElse (fun _ => searchCap rest)

/-- Shallow embedding of `TvilRoomsDailyParser._parse_room_capacity` (the
spec's `extract_capacity_from_description`). -/
def parse_room_capacity (text : Option String) : String :=
  match text with
  | none => ""
  | some s =>
    if s = "" then ""
    else
      match searchCap s.data with
      | some ds => String.mk ds
      | none => ""

/-- Specification-side predicate: the text contains an occurrence of the
availability pattern (literal, nonempty digit run, literal, nonempty digit
run). -/
def availOccurs (cs : List Char) : Prop :=
  ∃ pre ds ms post, cs = pre ++ litSvobodny ++ ds ++ litIz ++ ms ++ post ∧
    ds ≠ [] ∧ ds.all Char.isDigit ∧ ms ≠ [] ∧ ms.all Char.isDigit

/-- Specification-side predicate: the text contains a nonempty digit run
directly followed by the capacity literal. -/
def capOccurs (cs : List Char) : Prop :=
  ∃ pre ds post, cs = pre ++ ds ++ litMestny ++ post ∧
    ds ≠ [] ∧ ds.all Char.isDigit

/-! ### Catalog Harvester (src/tvil_hotels.py)

`TvilHotelsDailyParser._extract_hotels_from_json` reads a JSON-API envelope:
`data` is an array of records, each with `id`, `attributes`
(title, city_address, address, rooms_total) and `links.public`.
`_parse_all_pages_with_pagination` loops: fetch the current URL, extend the
accumulator with the extracted hotels, and follow `links.next` (after URL
rewriting) until it is absent, breaking on any fetch failure.  The fetcher
is external; a run is modelled against a fixture list of responses in the
order the loop would request them, `none` being a failed fetch and the
`next` flag of a page meaning its `links.next` points at the following
fixture entry. -/

/-- Base site origin, `TvilHotelsDailyParser.base_url`. -/
def base_url : String := "https://tvil.ru"

/-- Attributes of one hotel record.  `rooms_total` is a JSON integer when
present. -/
structure HotelAttrs where
  title : String
  city_address : String
  address : String
  rooms_total : Option Int
deriving DecidableEq

/-- One record of the `data` array of a listing page.  `attributes = none`
models an absent or falsy `attributes` object (the `if not attributes`
check); `id` and `public_link` carry the `.get(..., "")` defaults. -/
structure HotelRecord where
  id : String
  attributes : Option HotelAttrs
  public_link : String
deriving DecidableEq

/-- Normalisation of `links.public` against the base origin, as in
`_extract_hotels_from_json`. -/
def normalize_public_link (link : String) : String :=
  if link = "" then ""
  else if link.startsWith ("/") then base_url ++ link
  else if link.startsWith ("http") then link
  else base_url ++ "/" ++ link

/-- One row of the harvested hotel table, fields in the order of the
`hotel_data` dict literal. -/
structure HotelOut where
  city : String
  tvil_hotel_id : String
  name : String
  address : String
  url : String
  rooms_number : String
deriving DecidableEq

/-- Per-record body of the extraction loop: skip if `attributes` is falsy or
`id`/`attributes.title` is missing, otherwise build the output row. -/
def extractHotelRecord (h : HotelRecord) : Option HotelOut :=
  match h.attributes with
  | none => none
  | some attrs =>
    if h.id = "" ∨ attrs.title = "" then none
    else
      some { city := attrs.city_address
             tvil_hotel_id := h.id
             name := attrs.title
             address := attrs.address
             url := normalize_public_link h.public_link
             rooms_number :=
               match attrs.rooms_total with
               | some n => intStr n
               | none => "" }

/-- Shallow embedding of `_extract_hotels_from_json`: `none` models a
response without a list-valued `data` key. -/
def extract_hotels_from_json (data : Option (List HotelRecord)) : List HotelOut :=
  match data with
  | none => []
  | some arr => arr.filterMap extractHotelRecord

/-- A record that survives the extraction filter: `attributes` present with
a nonempty `title`, and a nonempty `id`. -/
def isValidRecord (h : HotelRecord) : Bool :=
  match h.attributes with
  | none => false
  | some attrs => !(h.id = "") && !(attrs.title = "")

/-- One fixture page: its (possibly missing) `data` array and whether its
`links.next` is present, pointing at the following fixture page. -/
structure PageJson where
  data : Option (List HotelRecord)
  next : Bool
deriving DecidableEq

/-- Count of records of a page kept by the extraction filter. -/
def pageValidCount (p : PageJson) : Nat :=
  match p.data with
  | none => 0
  | some arr => (arr.filter isValidRecord).length

/-- Shallow embedding of `_parse_all_pages_with_pagination` against a
fixture: returns the accumulated hotel rows and the number of fetches
performed.  A `none` response is a failed fetch (`if not json_data: break`),
and a page whose `next` flag is false ends the loop. -/
def run_pagination : List (Option PageJson) → List HotelOut × Nat
  | [] => ([], 0)
  | none :: _ => ([], 1)
  | some p :: rest =>
    let hs := extract_hotels_from_json p.data
    if p.next then
      let r := run_pagination rest
      (hs ++ r.1, r.2 + 1)
    else (hs, 1)

/-- The `fieldnames` list of `TvilHotelsDailyParser._save_to_csv`. -/
def hotels_fieldnames : List String :=
  ["city", "tvil_hotel_id", "name", "address", "url", "rooms_number"]

/-- The header row `csv.DictWriter.writeheader` emits: the fieldnames joined
by the comma delimiter (none of them needs quoting). -/
def hotels_csv_header : String := String.intercalate (",") hotels_fieldnames

/-! ### Availability Collector (src/tvil_rooms.py)

`TvilRoomsDailyParser._extract_room_data` reads the calculation response:
element 0 of `data` is the hotel (its `id` overrides the input hotel id),
elements 1.. are room types.  With exactly one element it emits a single
placeholder row; otherwise one row per room type, joining the description
map fetched separately. -/

/-- One element of the calculation `data` array.  `id` is `none` when the
`id` key is absent (the code supplies `.get` defaults), `total_price` and
`free_count` are the JSON numbers under `attributes` / `rooms_data`, and
`text` is the availability text. -/
structure CalcItem where
  id : Option String
  total_price : Option Int
  free_count : Option Int
  text : Option String
deriving DecidableEq

/-- One row of the room-offer table, fields in the order of the dict
literal in `_extract_room_data`. -/
structure RoomOut where
  tvil_hotel_id : String
  room_name : String
  room_id : String
  free_rooms : String
  all_rooms : String
  room_capacity : String
  price : String
  url : String
deriving DecidableEq

/-- Lookup in the description map (`descriptions.get(str(room_id), '')`). -/
def descLookup (k : String) : List (String × String) → String
  | [] => ""
  | (k2, v) :: rest => if k2 = k then v else descLookup k rest

/-- Shallow embedding of `_extract_room_data`.  `calculate_data = none`
models a falsy response or one without a list-valued `data` key. -/
def extract_room_data (calculate_data : Option (List CalcItem))
    (descriptions : List (String × String)) (hotel_id : String)
    (hotel_url : String) : List RoomOut :=
  match calculate_data with
  | none => []
  | some [] => []
  | some (hotel_element :: rest) =>
    let tvil_hotel_id := hotel_element.id.getD hotel_id
    match rest with
    | [] =>
      [{ tvil_hotel_id := tvil_hotel_id
         room_name := ""
         room_id := ""
         free_rooms := "0"
         all_rooms := "0"
         room_capacity := ""
         price := "0"
         url := hotel_url }]
    | _ :: _ =>
      rest.map (fun room_item =>
        let room_id := room_item.id.getD ""
        let price :=
          match room_item.total_price with
          | some p => intStr p
          | none => "0"
        let free_rooms :=
          match room_item.free_count with
          | some f => intStr f
          | none => "0"
        let all_rooms := natStr (extract_all_rooms room_item.text)
        let description := descLookup room_id descriptions
        { tvil_hotel_id := tvil_hotel_id
          room_name := description
          room_id := room_id
          free_rooms := free_rooms
          all_rooms := all_rooms
          room_capacity := parse_room_capacity (some description)
          price := price
          url := hotel_url })

/-! ### Statistics Aggregator (src/tvil_statistic.py)

`generate_statistics` reads the hotels CSV into an insertion-ordered map
keyed by `tvil_hotel_id` (later rows overwrite the value, keeping the first
position, as a Python dict does), folds the rooms CSV into per-hotel
accumulators, and emits one output row per map entry.  Only the columns the
function reads appear in the row types. -/

/-- Columns of the hotels CSV read by the aggregator. -/
structure HotelCsvRow where
  tvil_hotel_id : String
  name : String
  rooms_number : String
deriving DecidableEq

/-- Columns of the rooms CSV read by the aggregator. -/
structure RoomRow where
  tvil_hotel_id : String
  free_rooms : String
  room_capacity : String
  price : String
deriving DecidableEq

/-- The per-hotel accumulator of the rooms fold. -/
structure RoomStats where
  free_rooms_amount : Int
  min_price : Option ℚ
  max_capacity : Int
deriving DecidableEq

/-- The `defaultdict` initial value. -/
def RoomStats.init : RoomStats :=
  { free_rooms_amount := 0, min_price := none, max_capacity := 0 }

/-- Minimum-price update: keep the smaller of the current optional minimum
and a new candidate. -/
def minPriceUpdate (cur : Option ℚ) (pv : ℚ) : Option ℚ :=
  match cur with
  | none => some pv
  | some c => if pv < c then some pv else some c

/-- Body of the rooms loop of `generate_statistics` for one row: the three
try-blocks updating `free_rooms_amount`, `max_capacity` and `min_price`.
A failed `int()` leaves the corresponding update skipped. -/
def updateStats (st : RoomStats) (row : RoomRow) : RoomStats :=
  let freeParsed := pyIntOpt row.free_rooms
  let free_rooms_value := freeParsed.getD 0
  let st1 :=
    match freeParsed with
    | some v => { st with free_rooms_amount := st.free_rooms_amount + v }
    | none => st
  let st2 :=
    match pyIntOpt row.room_capacity with
    | some cap =>
      if 0 < cap ∧ 0 < free_rooms_value then
        { st1 with max_capacity := st1.max_capacity + free_rooms_value * cap }
      else st1
    | none => st1
  if row.price ≠ "" ∧ 0 < free_rooms_value then
    match pyFloatOpt row.price with
    | some pv =>
      if 0 < pv then { st2 with min_price := minPriceUpdate st2.min_price pv }
      else st2
    | none => st2
  else st2

/-- Association-list lookup, for the Python dict lookups of the
aggregator. -/
def alookup {β : Type} (k : String) : List (String × β) → Option β
  | [] => none
  | (k2, v) :: rest => if k2 = k then some v else alookup k rest

/-- Association-list update with Python dict semantics: an existing key
keeps its position and gets the new value, a fresh key is appended. -/
def aupsert {β : Type} (k : String) (f : Option β → β) :
    List (String × β) → List (String × β)
  | [] => [(k, f none)]
  | (k2, v) :: rest =>
    if k2 = k then (k2, f (some v)) :: rest
    else (k2, v) :: aupsert k f rest

/-- One step of the rooms loop: rows with an empty `tvil_hotel_id` are
skipped, otherwise the keyed accumulator is updated. -/
def stepRooms (acc : List (String × RoomStats)) (row : RoomRow) :
    List (String × RoomStats) :=
  if row.tvil_hotel_id = "" then acc
  else aupsert row.tvil_hotel_id
    (fun o => updateStats (o.getD RoomStats.init) row) acc

/-- The `rooms_stats` map after the rooms loop. -/
def roomsStatsMap (rows : List RoomRow) : List (String × RoomStats) :=
  rows.foldl stepRooms []

/-- The value stored per hotel in `hotels_data`. -/
structure HotelInfo where
  name : String
  rooms_number : String
deriving DecidableEq

/-- One step of the hotels loop: rows with an empty `tvil_hotel_id` are
skipped, otherwise the dict entry is assigned (overwriting). -/
def stepHotels (acc : List (String × HotelInfo)) (row : HotelCsvRow) :
    List (String × HotelInfo) :=
  if row.tvil_hotel_id = "" then acc
  else aupsert row.tvil_hotel_id
    (fun _ => { name := row.name, rooms_number := row.rooms_number }) acc

/-- The `hotels_data` dict after the hotels loop. -/
def hotelsData (rows : List HotelCsvRow) : List (String × HotelInfo) :=
  rows.foldl stepHotels []

/-- One output row of the statistics table.  Numeric fields hold the values
computed before the final `str()` conversion of the CSV writer;
`available_rooms_percent` is the rounded rational, `min_price` the already
formatted string. -/
structure DailyStatistic where
  tvil_hotel_id : String
  name : String
  rooms_num : Int
  free_rooms_amount : Int
  max_capacity : Int
  available_rooms_percent : ℚ
  date : String
  min_price : String
deriving DecidableEq

/-- The per-hotel body of the output loop of `generate_statistics`. -/
def statOf (rs : List (String × RoomStats)) (dateStr : String)
    (e : String × HotelInfo) : DailyStatistic :=
  let rooms_num := pyIntD e.2.rooms_number
  let stats := (alookup e.1 rs).getD RoomStats.init
  let available_rooms_percent :=
    if 0 < rooms_num then
      roundTo2 ((stats.free_rooms_amount : ℚ) / (rooms_num : ℚ) * 100)
    else 0
  { tvil_hotel_id := e.1
    name := e.2.name
    rooms_num := rooms_num
    free_rooms_amount := stats.free_rooms_amount
    max_capacity := stats.max_capacity
    available_rooms_percent := available_rooms_percent
    date := dateStr
    min_price :=
      match stats.min_price with
      | some p => format2 p
      | none => "" }

/-- Shallow embedding of the computational core of `generate_statistics`:
from the two already-read CSV tables and the formatted run date to the list
of output rows, in emission order. -/
def generate_statistics (hotels : List HotelCsvRow) (rooms : List RoomRow)
    (dateStr : String) : List DailyStatistic :=
  (hotelsData hotels).map (statOf (roomsStatsMap rooms) dateStr)

/-! ### Derived per-row quantities used to state the aggregator claims -/

/-- The free-room contribution of one rooms row (zero on a failed or empty
parse). -/
def rowFree (row : RoomRow) : Int := (pyIntOpt row.free_rooms).getD 0

/-- The capacity contribution of one rooms row: free times capacity when
both are positive, else zero. -/
def rowCapContrib (row : RoomRow) : Int :=
  let f := rowFree row
  let c := pyIntD row.room_capacity
  if 0 < c ∧ 0 < f then f * c else 0

/-- The price a rooms row offers to the minimum: present only when the row
has free rooms and a parsable positive price. -/
def rowPriceOpt (row : RoomRow) : Option ℚ :=
  if row.price ≠ "" ∧ 0 < rowFree row then
    match pyFloatOpt row.price with
    | some pv => if 0 < pv then some pv else none
    | none => none
  else none

/-- Combine the current optional minimum with one row's optional price
candidate. -/
def minCombine (cur : Option ℚ) (p : Option ℚ) : Option ℚ :=
  match p with
  | none => cur
  | some pv => minPriceUpdate cur pv

/-! ### Concrete fixtures used by the witnesses -/

/-- A concrete valid record, for witnesses. -/
def recOkA : HotelRecord :=
  { id := "101"
    attributes := some { title := "Hotel A", city_address := "Irkutsk",
                         address := "Main 1", rooms_total := some 12 }
    public_link := "/city/irkutsk/hotels/101/" }

/-- A concrete record without an id, dropped by the extraction filter. -/
def recNoId : HotelRecord :=
  { id := ""
    attributes := some { title := "Nameless", city_address := "",
                         address := "", rooms_total := none }
    public_link := "" }

/-- A second concrete valid record, for witnesses. -/
def recOkB : HotelRecord :=
  { id := "102"
    attributes := some { title := "Hotel B", city_address := "",
                         address := "", rooms_total := none }
    public_link := "" }

/-- First fixture page: two records (one invalid), next link present. -/
def pageA : PageJson := { data := some [recOkA, recNoId], next := true }

/-- Second fixture page: one record, no next link. -/
def pageB : PageJson := { data := some [recOkB], next := false }

end Tvil

namespace Tvil

/-! ## Correctness of the pattern scanners -/

theorem takeDigits_append : ∀ cs : List Char,
    (takeDigits cs).1 ++ (takeDigits cs).2 = cs := by
  intro cs
  induction cs with
  | nil => rfl
  | cons c r ih =>
    by_cases hc : c.isDigit
    · simpa [takeDigits, hc] using ih
    · simp [takeDigits, hc]

theorem takeDigits_all : ∀ cs : List Char,
    ((takeDigits cs).1).all Char.isDigit = true := by
  intro cs
  induction cs with
  | nil => rfl
  | cons c r ih =>
    by_cases hc : c.isDigit
    · simpa [takeDigits, hc] using ih
    · simp [takeDigits, hc]

theorem takeDigits_rest_head : ∀ (cs : List Char) (c : Char) (r : List Char),
    (takeDigits cs).2 = c :: r → c.isDigit = false := by
  intro cs
  induction cs with
  | nil => intro c r h; simp [takeDigits] at h
  | cons a rest ih =>
    intro c r h
    by_cases ha : a.isDigit
    · rw [show takeDigits (a :: rest) =
          (a :: (takeDigits rest).1, (takeDigits rest).2) by
        simp [takeDigits, ha]] at h
      exact ih c r h
    · rw [show takeDigits (a :: rest) = ([], a :: rest) by
        simp [takeDigits, ha]] at h
      obtain ⟨h1, _⟩ := List.cons.inj h
      rw [← h1]
      simpa using ha

theorem takeDigits_of_digits : ∀ (ds r : List Char),
    ds.all Char.isDigit = true →
    takeDigits (ds ++ r) = (ds ++ (takeDigits r).1, (takeDigits r).2) := by
  intro ds
  induction ds with
  | nil => intro r _; simp
  | cons d ds ih =>
    intro r h
    rw [List.all_cons, Bool.and_eq_true] at h
    simp [takeDigits, h.1, ih r h.2]

theorem stripLit_append : ∀ p r : List Char, stripLit p (p ++ r) = some r := by
  intro p
  induction p with
  | nil => intro r; rfl
  | cons c p ih => intro r; simp [stripLit, ih]

theorem stripLit_sound : ∀ p cs r : List Char,
    stripLit p cs = some r → cs = p ++ r := by
  intro p
  induction p with
  | nil =>
    intro cs r h
    simp [stripLit] at h
    rw [h]; rfl
  | cons a p ih =>
    intro cs r h
    cases cs with
    | nil => simp [stripLit] at h
    | cons c cs2 =>
      simp only [stripLit] at h
      by_cases hca : c = a
      · rw [if_pos hca] at h
        rw [hca, List.cons_append, ih cs2 r h]
      · rw [if_neg hca] at h
        cases h

theorem matchAvailAt_sound (cs ms : List Char) (h : matchAvailAt cs = some ms) :
    ∃ ds post, cs = litSvobodny ++ (ds ++ (litIz ++ (ms ++ post))) ∧
      ds ≠ [] ∧ ds.all Char.isDigit = true ∧ ms ≠ [] ∧
      ms.all Char.isDigit = true ∧
      ∀ c r, post = c :: r → c.isDigit = false := by
  unfold matchAvailAt at h
  cases h1 : stripLit litSvobodny cs with
  | none =>
    rw [h1] at h
    simp only [Option.bind] at h
    exact Option.noConfusion h
  | some cs1 =>
    rw [h1] at h
    simp only [Option.bind] at h
    by_cases hd1 : (takeDigits cs1).1 = []
    · rw [if_pos hd1] at h; exact Option.noConfusion h
    · rw [if_neg hd1] at h
      cases h2 : stripLit litIz (takeDigits cs1).2 with
      | none =>
        rw [h2] at h
        simp only [Option.bind] at h
        exact Option.noConfusion h
      | some cs2 =>
        rw [h2] at h
        simp only [Option.bind] at h
        by_cases hd2 : (takeDigits cs2).1 = []
        · rw [if_pos hd2] at h; exact Option.noConfusion h
        · rw [if_neg hd2] at h
          injection h with hms
          refine ⟨(takeDigits cs1).1, (takeDigits cs2).2, ?_, hd1,
            takeDigits_all cs1, ?_, ?_, ?_⟩
          · have e1 := stripLit_sound _ _ _ h1
            have e2 := takeDigits_append cs1
            have e3 := stripLit_sound _ _ _ h2
            have e4 := takeDigits_append cs2
            rw [← hms, e4, ← e3, e2]
            exact e1
          · rw [← hms]; exact hd2
          · rw [← hms]; exact takeDigits_all cs2
          · intro c r hcr; exact takeDigits_rest_head cs2 c r hcr

theorem matchAvailAt_complete (ds ms post : List Char) (hds : ds ≠ [])
    (hdsd : ds.all Char.isDigit = true) (hms : ms ≠ [])
    (hmsd : ms.all Char.isDigit = true) :
    (matchAvailAt (litSvobodny ++ (ds ++ (litIz ++ (ms ++ post))))).isSome := by
  have hsp : Char.isDigit ' ' = false := by decide
  have hIz : takeDigits (litIz ++ (ms ++ post)) =
      ([], litIz ++ (ms ++ post)) := by
    show takeDigits (' ' :: ("из ".data ++ (ms ++ post))) =
      ([], ' ' :: ("из ".data ++ (ms ++ post)))
    simp [takeDigits, hsp]
  have hTD1 : takeDigits (ds ++ (litIz ++ (ms ++ post))) =
      (ds, litIz ++ (ms ++ post)) := by
    rw [takeDigits_of_digits ds _ hdsd, hIz]
    simp
  have hTD2 : takeDigits (ms ++ post) =
      (ms ++ (takeDigits post).1, (takeDigits post).2) :=
    takeDigits_of_digits ms post hmsd
  unfold matchAvailAt
  rw [stripLit_append]
  simp only [Option.bind]
  rw [hTD1]
  simp [hds, hms, stripLit_append, hTD2, Option.bind]

theorem searchAvail_sound : ∀ cs ms : List Char, searchAvail cs = some ms →
    ∃ pre ds post,
      cs = pre ++ (litSvobodny ++ (ds ++ (litIz ++ (ms ++ post)))) ∧
      ds ≠ [] ∧ ds.all Char.isDigit = true ∧ ms ≠ [] ∧
      ms.all Char.isDigit = true ∧
      ∀ c r, post = c :: r → c.isDigit = false := by
  intro cs
  induction cs with
  | nil => intro ms h; simp [searchAvail] at h
  | cons c rest ih =>
    intro ms h
    rw [searchAvail] at h
    cases hm : matchAvailAt (c :: rest) with
    | some ms2 =>
      rw [hm] at h
      simp only [Option.orElse] at h
      injection h with h
      subst h
      obtain ⟨ds, post, heq, hp⟩ := matchAvailAt_sound _ _ hm
      exact ⟨[], ds, post, by simpa using heq, hp⟩
    | none =>
      rw [hm] at h
      simp only [Option.orElse] at h
      obtain ⟨pre, ds, post, heq, hp⟩ := ih ms h
      exact ⟨c :: pre, ds, post, by rw [List.cons_append, heq], hp⟩

theorem searchAvail_append (pre rest0 : List Char)
    (h : (matchAvailAt rest0).isSome) : (searchAvail (pre ++ rest0)).isSome := by
  induction pre with
  | nil =>
    cases rest0 with
    | nil => exact absurd h (by decide)
    | cons c r =>
      rw [List.nil_append, searchAvail]
      cases hm : matchAvailAt (c :: r) with
      | some ms => simp [Option.orElse]
      | none => rw [hm] at h; simp at h
  | cons c pre ih =>
    rw [List.cons_append, searchAvail]
    cases hm : matchAvailAt (c :: (pre ++ rest0)) with
    | some ms => simp [Option.orElse]
    | none => simpa [Option.orElse] using ih

theorem searchAvail_complete (cs : List Char) (h : availOccurs cs) :
    (searchAvail cs).isSome := by
  obtain ⟨pre, ds, ms, post, heq, hds, hdsd, hms, hmsd⟩ := h
  rw [heq]
  have := searchAvail_append pre _
    (matchAvailAt_complete ds ms post hds hdsd hms hmsd)
  simpa [List.append_assoc] using this

theorem extract_all_rooms_of_search (s : String) (ms : List Char)
    (h : searchAvail s.data = some ms) :
    extract_all_rooms (some s) = natOfDigits ms := by
  by_cases hs : s = ""
  · rw [hs] at h
    simp [searchAvail, show ("" : String).data = [] from rfl] at h
  · simp [extract_all_rooms, hs, h]

theorem extract_all_rooms_of_no_search (s : String)
    (h : searchAvail s.data = none) : extract_all_rooms (some s) = 0 := by
  by_cases hs : s = ""
  · simp [extract_all_rooms, hs]
  · simp [extract_all_rooms, hs, h]

theorem matchCapAt_sound (cs ds : List Char) (h : matchCapAt cs = some ds) :
    ∃ post, cs = ds ++ (litMestny ++ post) ∧ ds ≠ [] ∧
      ds.all Char.isDigit = true := by
  unfold matchCapAt at h
  by_cases hd : (takeDigits cs).1 = []
  · rw [if_pos hd] at h; exact Option.noConfusion h
  · rw [if_neg hd] at h
    cases h2 : stripLit litMestny (takeDigits cs).2 with
    | none =>
      rw [h2] at h
      simp only [Option.bind] at h
      exact Option.noConfusion h
    | some r =>
      rw [h2] at h
      simp only [Option.bind] at h
      injection h with hds
      refine ⟨r, ?_, ?_, ?_⟩
      · have e2 := takeDigits_append cs
        have e3 := stripLit_sound _ _ _ h2
        rw [← hds, ← e3]
        exact e2.symm
      · rw [← hds]; exact hd
      · rw [← hds]; exact takeDigits_all cs

theorem matchCapAt_complete (ds post : List Char) (hds : ds ≠ [])
    (hdsd : ds.all Char.isDigit = true) :
    (matchCapAt (ds ++ (litMestny ++ post))).isSome := by
  have hdash : Char.isDigit '-' = false := by decide
  have hM : takeDigits (litMestny ++ post) = ([], litMestny ++ post) := by
    show takeDigits ('-' :: ("местный".data ++ post)) =
      ([], '-' :: ("местный".data ++ post))
    simp [takeDigits, hdash]
  have hTD : takeDigits (ds ++ (litMestny ++ post)) =
      (ds, litMestny ++ post) := by
    rw [takeDigits_of_digits ds _ hdsd, hM]
    simp
  unfold matchCapAt
  rw [hTD]
  simp [hds, stripLit_append, Option.bind]

theorem searchCap_sound : ∀ cs ds : List Char, searchCap cs = some ds →
    ∃ pre post, cs = pre ++ (ds ++ (litMestny ++ post)) ∧ ds ≠ [] ∧
      ds.all Char.isDigit = true := by
  intro cs
  induction cs with
  | nil => intro ds h; simp [searchCap] at h
  | cons c rest ih =>
    intro ds h
    rw [searchCap] at h
    cases hm : matchCapAt (c :: rest) with
    | some ds2 =>
      rw [hm] at h
      simp only [Option.orElse] at h
      injection h with h
      subst h
      obtain ⟨post, heq, hp⟩ := matchCapAt_sound _ _ hm
      exact ⟨[], post, by simpa using heq, hp⟩
    | none =>
      rw [hm] at h
      simp only [Option.orElse] at h
      obtain ⟨pre, post, heq, hp⟩ := ih ds h
      exact ⟨c :: pre, post, by rw [List.cons_append, heq], hp⟩

theorem searchCap_append (pre rest0 : List Char)
    (h : (matchCapAt rest0).isSome) : (searchCap (pre ++ rest0)).isSome := by
  induction pre with
  | nil =>
    cases rest0 with
    | nil => exact absurd h (by decide)
    | cons c r =>
      rw [List.nil_append, searchCap]
      cases hm : matchCapAt (c :: r) with
      | some ds => simp [Option.orElse]
      | none => rw [hm] at h; simp at h
  | cons c pre ih =>
    rw [List.cons_append, searchCap]
    cases hm : matchCapAt (c :: (pre ++ rest0)) with
    | some ds => simp [Option.orElse]
    | none => simpa [Option.orElse] using ih

theorem searchCap_complete (cs : List Char) (h : capOccurs cs) :
    (searchCap cs).isSome := by
  obtain ⟨pre, ds, post, heq, hds, hdsd⟩ := h
  rw [heq]
  have := searchCap_append pre _ (matchCapAt_complete ds post hds hdsd)
  simpa [List.append_assoc] using this

theorem parse_room_capacity_of_search (s : String) (ds : List Char)
    (h : searchCap s.data = some ds) :
    parse_room_capacity (some s) = String.mk ds := by
  by_cases hs : s = ""
  · rw [hs] at h
    simp [searchCap, show ("" : String).data = [] from rfl] at h
  · simp [parse_room_capacity, hs, h]

theorem parse_room_capacity_of_no_search (s : String)
    (h : searchCap s.data = none) : parse_room_capacity (some s) = "" := by
  by_cases hs : s = ""
  · simp [parse_room_capacity, hs]
  · simp [parse_room_capacity, hs, h]

/-! ## Pagination lemmas -/

theorem extractHotelRecord_isSome (h : HotelRecord) :
    (extractHotelRecord h).isSome = isValidRecord h := by
  cases ha : h.attributes with
  | none => simp [extractHotelRecord, isValidRecord, ha]
  | some attrs =>
    simp only [extractHotelRecord, isValidRecord, ha]
    split_ifs with hcond
    · rcases hcond with h1 | h1 <;> simp [h1]
    · push_neg at hcond
      simp [hcond.1, hcond.2]

theorem length_filterMap_isSome {α β : Type} (f : α → Option β) :
    ∀ l : List α,
      (l.filterMap f).length = (l.filter (fun a => (f a).isSome)).length := by
  intro l
  induction l with
  | nil => rfl
  | cons a l ih =>
    cases hf : f a with
    | none => simp [List.filterMap_cons, List.filter_cons, hf, ih]
    | some b => simp [List.filterMap_cons, List.filter_cons, hf, ih]

theorem extract_hotels_page_length (p : PageJson) :
    (extract_hotels_from_json p.data).length = pageValidCount p := by
  cases hd : p.data with
  | none => simp [extract_hotels_from_json, pageValidCount, hd]
  | some arr =>
    simp only [extract_hotels_from_json, pageValidCount, hd]
    rw [length_filterMap_isSome]
    congr 1
    exact List.filter_congr (fun a _ => extractHotelRecord_isSome a)

theorem join_map_extract_length (pages : List PageJson) :
    ((pages.map (fun p => extract_hotels_from_json p.data)).flatten).length =
      (pages.map pageValidCount).sum := by
  induction pages with
  | nil => rfl
  | cons p ps ih => simp [extract_hotels_page_length p, ih]

theorem run_pagination_good (plast : PageJson) (hlast : plast.next = false) :
    ∀ ps : List PageJson, (∀ p ∈ ps, p.next = true) →
    run_pagination ((ps ++ [plast]).map some) =
      (((ps ++ [plast]).map (fun p => extract_hotels_from_json p.data)).flatten,
        ps.length + 1) := by
  intro ps
  induction ps with
  | nil => intro _; simp [run_pagination, hlast]
  | cons p ps ih =>
    intro hps
    have hp : p.next = true := hps p (by simp)
    simp only [List.cons_append, List.map_cons, run_pagination, hp, if_true,
      List.append_eq]
    rw [ih (fun q hq => hps q (by simp [hq]))]
    simp

/-! ## Aggregator lemmas -/

theorem updateStats_spec (st : RoomStats) (row : RoomRow) :
    updateStats st row =
      { free_rooms_amount := st.free_rooms_amount + rowFree row
        min_price := minCombine st.min_price (rowPriceOpt row)
        max_capacity := st.max_capacity + rowCapContrib row } := by
  cases hf : pyIntOpt row.free_rooms <;>
    cases hc : pyIntOpt row.room_capacity <;>
      cases hp : pyFloatOpt row.price <;>
        simp only [updateStats, rowFree, rowCapContrib, rowPriceOpt,
          minCombine, pyIntD, hf, hc, hp, Option.getD_none, Option.getD_some] <;>
        split_ifs <;>
        simp_all [minPriceUpdate]

theorem foldStats_free : ∀ (rows : List RoomRow) (st : RoomStats),
    (rows.foldl updateStats st).free_rooms_amount =
      st.free_rooms_amount + (rows.map rowFree).sum := by
  intro rows
  induction rows with
  | nil => intro st; simp
  | cons row rows ih =>
    intro st
    rw [List.foldl_cons, ih, updateStats_spec]
    simp [add_assoc]

theorem foldStats_cap : ∀ (rows : List RoomRow) (st : RoomStats),
    (rows.foldl updateStats st).max_capacity =
      st.max_capacity + (rows.map rowCapContrib).sum := by
  intro rows
  induction rows with
  | nil => intro st; simp
  | cons row rows ih =>
    intro st
    rw [List.foldl_cons, ih, updateStats_spec]
    simp [add_assoc]

theorem foldStats_min : ∀ (rows : List RoomRow) (st : RoomStats),
    (rows.foldl updateStats st).min_price =
      (rows.filterMap rowPriceOpt).foldl minPriceUpdate st.min_price := by
  intro rows
  induction rows with
  | nil => intro st; rfl
  | cons row rows ih =>
    intro st
    rw [List.foldl_cons, ih, updateStats_spec]
    cases hp : rowPriceOpt row with
    | none => simp [List.filterMap_cons, hp, minCombine]
    | some pv => simp [List.filterMap_cons, hp, minCombine]

theorem foldMin_eq_none : ∀ (l : List ℚ) (cur : Option ℚ),
    l.foldl minPriceUpdate cur = none ↔ cur = none ∧ l = [] := by
  intro l
  induction l with
  | nil => intro cur; simp
  | cons v l ih =>
    intro cur
    rw [List.foldl_cons]
    constructor
    · intro h
      rcases (ih _).mp h with ⟨hcur, -⟩
      cases cur with
      | none => simp [minPriceUpdate] at hcur
      | some c0 =>
        simp only [minPriceUpdate] at hcur
        split_ifs at hcur
    · rintro ⟨-, h⟩
      cases h

theorem foldMin_some : ∀ (l : List ℚ) (cur : Option ℚ) (m : ℚ),
    l.foldl minPriceUpdate cur = some m →
    (m ∈ l ∨ cur = some m) ∧ (∀ x ∈ l, m ≤ x) ∧
      (∀ c : ℚ, cur = some c → m ≤ c) := by
  intro l
  induction l with
  | nil =>
    intro cur m h
    refine ⟨Or.inr h, by simp, ?_⟩
    intro c hc
    rw [hc] at h
    injection h with h
    rw [h]
  | cons v l ih =>
    intro cur m h
    rw [List.foldl_cons] at h
    obtain ⟨hmem, hbound, hcur⟩ := ih _ _ h
    obtain ⟨w, hwv⟩ : ∃ w, minPriceUpdate cur v = some w := by
      cases cur with
      | none => exact ⟨v, rfl⟩
      | some c0 =>
        simp only [minPriceUpdate]
        by_cases hvc : v < c0
        · exact ⟨v, by rw [if_pos hvc]⟩
        · exact ⟨c0, by rw [if_neg hvc]⟩
    have hmw : m ≤ w := hcur w hwv
    have hw : w ≤ v ∧ ∀ c0 : ℚ, cur = some c0 → w ≤ c0 := by
      cases cur with
      | none =>
        simp [minPriceUpdate] at hwv
        subst hwv
        exact ⟨le_refl v, by simp⟩
      | some c0 =>
        simp only [minPriceUpdate] at hwv
        by_cases hlt : v < c0
        · rw [if_pos hlt] at hwv
          injection hwv with hwv
          subst hwv
          refine ⟨le_refl v, ?_⟩
          intro c1 hc1
          injection hc1 with hc1
          rw [← hc1]
          exact le_of_lt hlt
        · rw [if_neg hlt] at hwv
          injection hwv with hwv
          subst hwv
          refine ⟨le_of_not_lt hlt, ?_⟩
          intro c1 hc1
          injection hc1 with hc1
          rw [← hc1]
    have hres : m = v ∨ cur = some m ∨ m ∈ l := by
      rcases hmem with hm | hm
      · exact Or.inr (Or.inr hm)
      · rw [hwv] at hm
        injection hm with hm
        subst hm
        cases cur with
        | none =>
          simp [minPriceUpdate] at hwv
          exact Or.inl hwv.symm
        | some c0 =>
          simp only [minPriceUpdate] at hwv
          by_cases hvc : v < c0
          · rw [if_pos hvc] at hwv
            injection hwv with hwv
            exact Or.inl hwv.symm
          · rw [if_neg hvc] at hwv
            injection hwv with hwv
            exact Or.inr (Or.inl (by rw [hwv]))
    constructor
    · rcases hres with h2 | h2 | h2
      · exact Or.inl (by rw [h2]; exact List.mem_cons_self _ _)
      · exact Or.inr h2
      · exact Or.inl (List.mem_cons_of_mem _ h2)
    · refine ⟨?_, ?_⟩
      · intro x hx
        rcases List.mem_cons.mp hx with hx | hx
        · rw [hx]
          exact le_trans hmw hw.1
        · exact hbound x hx
      · intro c hc
        exact le_trans hmw (hw.2 c hc)

/-! ## Keyed-map lemmas -/

theorem alookup_aupsert_self {β : Type} (k : String) (f : Option β → β) :
    ∀ l : List (String × β),
      alookup k (aupsert k f l) = some (f (alookup k l)) := by
  intro l
  induction l with
  | nil => simp [aupsert, alookup]
  | cons e rest ih =>
    by_cases hk : e.1 = k
    · simp [aupsert, alookup, hk]
    · simp [aupsert, alookup, hk, ih]

theorem alookup_aupsert_ne {β : Type} (k k2 : String) (f : Option β → β)
    (hne : k ≠ k2) :
    ∀ l : List (String × β), alookup k (aupsert k2 f l) = alookup k l := by
  have h3 : ¬ k2 = k := fun h => hne h.symm
  intro l
  induction l with
  | nil => simp [aupsert, alookup, h3]
  | cons e rest ih =>
    by_cases hk : e.1 = k2
    · simp [aupsert, alookup, hk, h3]
    · by_cases hk2 : e.1 = k
      · simp [aupsert, alookup, hk, hk2, hne]
      · simp [aupsert, alookup, hk, hk2, ih]

theorem mem_aupsert {β : Type} (k : String) (f : Option β → β) :
    ∀ (l : List (String × β)) (e : String × β),
      e ∈ aupsert k f l → e ∈ l ∨ e.1 = k := by
  intro l
  induction l with
  | nil =>
    intro e he
    simp [aupsert] at he
    right
    rw [he]
  | cons e0 rest ih =>
    intro e he
    by_cases hk : e0.1 = k
    · rw [show aupsert k f (e0 :: rest) = (e0.1, f (some e0.2)) :: rest by
        simp [aupsert, hk]] at he
      rcases List.mem_cons.mp he with h | h
      · right; rw [h, hk]
      · left; exact List.mem_cons_of_mem _ h
    · rw [show aupsert k f (e0 :: rest) = e0 :: aupsert k f rest by
        simp [aupsert, hk]] at he
      rcases List.mem_cons.mp he with h | h
      · left; rw [h]; exact List.mem_cons_self _ _
      · rcases ih e h with h2 | h2
        · left; exact List.mem_cons_of_mem _ h2
        · right; exact h2

theorem keys_aupsert {β : Type} (k : String) (f : Option β → β) :
    ∀ l : List (String × β),
      (aupsert k f l).map Prod.fst =
        if k ∈ l.map Prod.fst then l.map Prod.fst
        else l.map Prod.fst ++ [k] := by
  intro l
  induction l with
  | nil => simp [aupsert]
  | cons e0 rest ih =>
    by_cases hk : e0.1 = k
    · rw [show aupsert k f (e0 :: rest) = (e0.1, f (some e0.2)) :: rest by
        simp [aupsert, hk]]
      simp [hk]
    · rw [show aupsert k f (e0 :: rest) = e0 :: aupsert k f rest by
        simp [aupsert, hk]]
      have hne : ¬ k = e0.1 := fun h => hk h.symm
      by_cases hmem : k ∈ rest.map Prod.fst
      · simp [ih, hmem, hne]
      · simp [ih, hmem, hne]

theorem nodup_keys_aupsert {β : Type} (k : String) (f : Option β → β)
    (l : List (String × β)) (h : (l.map Prod.fst).Nodup) :
    ((aupsert k f l).map Prod.fst).Nodup := by
  rw [keys_aupsert]
  split_ifs with hmem
  · exact h
  · rw [List.nodup_append]
    refine ⟨h, List.nodup_singleton k, ?_⟩
    intro a ha hb
    simp at hb
    rw [hb] at ha
    exact hmem ha

theorem alookup_mem_keys {β : Type} (k : String) (v : β) :
    ∀ l : List (String × β), alookup k l = some v → k ∈ l.map Prod.fst := by
  intro l
  induction l with
  | nil => intro h; simp [alookup] at h
  | cons e0 rest ih =>
    intro h
    by_cases hk : e0.1 = k
    · rw [← hk]; simp
    · rw [show alookup k (e0 :: rest) = alookup k rest by
        simp [alookup, hk]] at h
      exact List.mem_cons_of_mem _ (ih h)

theorem alookup_eq_of_mem_nodup {β : Type} :
    ∀ (l : List (String × β)) (e : String × β),
      (l.map Prod.fst).Nodup → e ∈ l → alookup e.1 l = some e.2 := by
  intro l
  induction l with
  | nil => intro e _ he; cases he
  | cons e0 rest ih =>
    intro e hnd he
    rcases List.mem_cons.mp he with h | h
    · rw [h]; simp [alookup]
    · have hk : ¬ e0.1 = e.1 := by
        intro hc
        have hmem : e.1 ∈ rest.map Prod.fst := List.mem_map_of_mem Prod.fst h
        rw [List.map_cons, List.nodup_cons] at hnd
        exact hnd.1 (hc ▸ hmem)
      rw [show alookup e.1 (e0 :: rest) = alookup e.1 rest by
        simp [alookup, hk]]
      refine ih e ?_ h
      rw [List.map_cons, List.nodup_cons] at hnd
      exact hnd.2

/-! ## Aggregator map-construction lemmas -/

theorem roomsStats_fold (hid : String) (hne : hid ≠ "") :
    ∀ (rows : List RoomRow) (acc : List (String × RoomStats)),
      (alookup hid (rows.foldl stepRooms acc)).getD RoomStats.init =
        (rows.filter (fun r => r.tvil_hotel_id == hid)).foldl updateStats
          ((alookup hid acc).getD RoomStats.init) := by
  intro rows
  induction rows with
  | nil => intro acc; rfl
  | cons row rows ih =>
    intro acc
    rw [List.foldl_cons]
    by_cases he : row.tvil_hotel_id = ""
    · have hne2 : (row.tvil_hotel_id == hid) = false := by
        rw [he]
        exact beq_eq_false_iff_ne.mpr (fun h => hne h.symm)
      rw [show stepRooms acc row = acc by simp [stepRooms, he]]
      rw [List.filter_cons, hne2]
      simp only [Bool.false_eq_true, if_false]
      exact ih acc
    · by_cases hk : row.tvil_hotel_id = hid
      · have hk2 : (row.tvil_hotel_id == hid) = true := beq_iff_eq.mpr hk
        rw [show stepRooms acc row =
            aupsert hid (fun o => updateStats (o.getD RoomStats.init) row) acc
          by simp [stepRooms, he, hk, hne]]
        rw [ih, List.filter_cons, hk2]
        simp only [if_true]
        rw [List.foldl_cons, alookup_aupsert_self]
        rfl
      · have hk2 : (row.tvil_hotel_id == hid) = false :=
          beq_eq_false_iff_ne.mpr hk
        rw [show stepRooms acc row =
            aupsert row.tvil_hotel_id
              (fun o => updateStats (o.getD RoomStats.init) row) acc
          by simp [stepRooms, he]]
        rw [ih, List.filter_cons, hk2]
        simp only [Bool.false_eq_true, if_false]
        rw [alookup_aupsert_ne hid row.tvil_hotel_id _ (fun h => hk h.symm)]

theorem getLast?_cons_getD {α : Type} : ∀ (l : List α) (a : α),
    (a :: l).getLast? = some (l.getLast?.getD a) := by
  intro l
  induction l with
  | nil => intro a; rfl
  | cons b l ih =>
    intro a
    rw [List.getLast?_cons_cons, ih b]
    simp

theorem hotelsData_fold (hid : String) (hne : hid ≠ "") :
    ∀ (rows : List HotelCsvRow) (acc : List (String × HotelInfo)),
      alookup hid (rows.foldl stepHotels acc) =
        match (rows.filter (fun r => r.tvil_hotel_id == hid)).getLast? with
        | some hr => some { name := hr.name, rooms_number := hr.rooms_number }
        | none => alookup hid acc := by
  intro rows
  induction rows with
  | nil => intro acc; rfl
  | cons row rows ih =>
    intro acc
    rw [List.foldl_cons]
    by_cases he : row.tvil_hotel_id = ""
    · have hne2 : (row.tvil_hotel_id == hid) = false := by
        rw [he]
        exact beq_eq_false_iff_ne.mpr (fun h => hne h.symm)
      rw [show stepHotels acc row = acc by simp [stepHotels, he]]
      rw [List.filter_cons, hne2]
      simp only [Bool.false_eq_true, if_false]
      exact ih acc
    · by_cases hk : row.tvil_hotel_id = hid
      · have hk2 : (row.tvil_hotel_id == hid) = true := beq_iff_eq.mpr hk
        rw [show stepHotels acc row =
            aupsert hid (fun _ =>
              ({ name := row.name, rooms_number := row.rooms_number } :
                HotelInfo)) acc
          by simp [stepHotels, he, hk, hne]]
        rw [ih, List.filter_cons, hk2]
        simp only [if_true]
        rw [getLast?_cons_getD]
        cases hl : (rows.filter
            (fun r => r.tvil_hotel_id == hid)).getLast? with
        | none => simp [alookup_aupsert_self]
        | some hr => simp
      · have hk2 : (row.tvil_hotel_id == hid) = false :=
          beq_eq_false_iff_ne.mpr hk
        rw [show stepHotels acc row =
            aupsert row.tvil_hotel_id (fun _ =>
              ({ name := row.name, rooms_number := row.rooms_number } :
                HotelInfo)) acc
          by simp [stepHotels, he]]
        rw [ih, List.filter_cons, hk2]
        simp only [Bool.false_eq_true, if_false]
        cases hl : (rows.filter
            (fun r => r.tvil_hotel_id == hid)).getLast? with
        | none =>
          rw [alookup_aupsert_ne hid row.tvil_hotel_id _ (fun h => hk h.symm)]
        | some hr => rfl

theorem hotelsData_mem_src :
    ∀ (rows : List HotelCsvRow) (acc : List (String × HotelInfo))
      (e : String × HotelInfo), e ∈ rows.foldl stepHotels acc →
      e ∈ acc ∨ (e.1 ≠ "" ∧ ∃ hr ∈ rows, hr.tvil_hotel_id = e.1) := by
  intro rows
  induction rows with
  | nil => intro acc e he; exact Or.inl he
  | cons row rows ih =>
    intro acc e he
    rw [List.foldl_cons] at he
    rcases ih _ e he with h | h
    · by_cases hrow : row.tvil_hotel_id = ""
      · rw [show stepHotels acc row = acc by simp [stepHotels, hrow]] at h
        exact Or.inl h
      · rw [show stepHotels acc row =
            aupsert row.tvil_hotel_id (fun _ =>
              ({ name := row.name, rooms_number := row.rooms_number } :
                HotelInfo)) acc
          by simp [stepHotels, hrow]] at h
        rcases mem_aupsert _ _ _ _ h with h2 | h2
        · exact Or.inl h2
        · exact Or.inr ⟨by rw [h2]; exact hrow,
            row, List.mem_cons_self _ _, h2.symm⟩
    · refine Or.inr ⟨h.1, ?_⟩
      obtain ⟨hr, hmem, hh⟩ := h.2
      exact ⟨hr, List.mem_cons_of_mem _ hmem, hh⟩

theorem nodup_keys_hotelsData :
    ∀ (rows : List HotelCsvRow) (acc : List (String × HotelInfo)),
      (acc.map Prod.fst).Nodup →
      (((rows.foldl stepHotels acc)).map Prod.fst).Nodup := by
  intro rows
  induction rows with
  | nil => intro acc h; exact h
  | cons row rows ih =>
    intro acc h
    rw [List.foldl_cons]
    apply ih
    by_cases hrow : row.tvil_hotel_id = ""
    · rw [show stepHotels acc row = acc by simp [stepHotels, hrow]]
      exact h
    · rw [show stepHotels acc row =
          aupsert row.tvil_hotel_id (fun _ =>
            ({ name := row.name, rooms_number := row.rooms_number } :
              HotelInfo)) acc
        by simp [stepHotels, hrow]]
      exact nodup_keys_aupsert _ _ _ h

theorem foldl_filter_skip {α β : Type} (step : β → α → β) (p : α → Bool)
    (hstep : ∀ acc a, p a = false → step acc a = acc) :
    ∀ (rows : List α) (acc : β),
      (rows.filter p).foldl step acc = rows.foldl step acc := by
  intro rows
  induction rows with
  | nil => intro acc; rfl
  | cons row rows ih =>
    intro acc
    rw [List.filter_cons]
    cases hp : p row with
    | false =>
      simp only [Bool.false_eq_true, if_false]
      rw [List.foldl_cons, hstep acc row hp]
      exact ih acc
    | true =>
      simp only [if_true]
      rw [List.foldl_cons, List.foldl_cons]
      exact ih (step acc row)

/-! ## Derived facts about generate_statistics -/

theorem statOf_id (rs : List (String × RoomStats)) (dateStr : String)
    (e : String × HotelInfo) : (statOf rs dateStr e).tvil_hotel_id = e.1 := rfl

theorem statOf_name (rs : List (String × RoomStats)) (dateStr : String)
    (e : String × HotelInfo) : (statOf rs dateStr e).name = e.2.name := rfl

theorem statOf_rooms_num (rs : List (String × RoomStats)) (dateStr : String)
    (e : String × HotelInfo) :
    (statOf rs dateStr e).rooms_num = pyIntD e.2.rooms_number := rfl

theorem statOf_free (rs : List (String × RoomStats)) (dateStr : String)
    (e : String × HotelInfo) :
    (statOf rs dateStr e).free_rooms_amount =
      ((alookup e.1 rs).getD RoomStats.init).free_rooms_amount := rfl

theorem statOf_max (rs : List (String × RoomStats)) (dateStr : String)
    (e : String × HotelInfo) :
    (statOf rs dateStr e).max_capacity =
      ((alookup e.1 rs).getD RoomStats.init).max_capacity := rfl

theorem statOf_percent (rs : List (String × RoomStats)) (dateStr : String)
    (e : String × HotelInfo) :
    (statOf rs dateStr e).available_rooms_percent =
      (if 0 < pyIntD e.2.rooms_number then
        roundTo2
          ((((alookup e.1 rs).getD RoomStats.init).free_rooms_amount : ℚ) /
            (pyIntD e.2.rooms_number : ℚ) * 100)
      else 0) := rfl

theorem statOf_min (rs : List (String × RoomStats)) (dateStr : String)
    (e : String × HotelInfo) :
    (statOf rs dateStr e).min_price =
      (match ((alookup e.1 rs).getD RoomStats.init).min_price with
       | some p => format2 p
       | none => "") := rfl

theorem roundTo2_zero : roundTo2 0 = 0 := by with_unfolding_all decide

theorem statsFor_eq (rooms : List RoomRow) (hid : String) (hne : hid ≠ "") :
    (alookup hid (roomsStatsMap rooms)).getD RoomStats.init =
      (rooms.filter (fun r => r.tvil_hotel_id == hid)).foldl updateStats
        RoomStats.init := by
  unfold roomsStatsMap
  rw [roomsStats_fold hid hne rooms []]
  rfl

theorem nodup_keys_gen (hotels : List HotelCsvRow) :
    ((hotelsData hotels).map Prod.fst).Nodup :=
  nodup_keys_hotelsData hotels [] (by simp)

theorem hid_mem_keys_of_exists (hotels : List HotelCsvRow) (hid : String)
    (hne : hid ≠ "") (hex : ∃ hr ∈ hotels, hr.tvil_hotel_id = hid) :
    hid ∈ (hotelsData hotels).map Prod.fst := by
  obtain ⟨hr, hmem, hhr⟩ := hex
  have hf : hr ∈ hotels.filter (fun r => r.tvil_hotel_id == hid) :=
    List.mem_filter.mpr ⟨hmem, beq_iff_eq.mpr hhr⟩
  obtain ⟨a, t, hat⟩ := List.exists_cons_of_ne_nil (List.ne_nil_of_mem hf)
  have hx : (hotels.filter (fun r => r.tvil_hotel_id == hid)).getLast? =
      some ((t.getLast?).getD a) := by rw [hat, getLast?_cons_getD]
  apply alookup_mem_keys hid
    ({ name := ((t.getLast?).getD a).name,
       rooms_number := ((t.getLast?).getD a).rooms_number } : HotelInfo)
  show alookup hid (hotelsData hotels) = _
  unfold hotelsData
  rw [hotelsData_fold hid hne hotels [], hx]

theorem gen_filter_length_one (hotels : List HotelCsvRow)
    (rooms : List RoomRow) (dateStr : String) (hid : String) (hne : hid ≠ "")
    (hex : ∃ hr ∈ hotels, hr.tvil_hotel_id = hid) :
    ((generate_statistics hotels rooms dateStr).filter
        (fun s => s.tvil_hotel_id == hid)).length = 1 := by
  rw [← List.countP_eq_length_filter]
  unfold generate_statistics
  rw [List.countP_map]
  show (hotelsData hotels).countP (fun e => e.1 == hid) = 1
  have h1 : (hotelsData hotels).countP (fun e => e.1 == hid) =
      ((hotelsData hotels).map Prod.fst).countP (fun k => k == hid) := by
    rw [List.countP_map]
    rfl
  rw [h1]
  show ((hotelsData hotels).map Prod.fst).count hid = 1
  exact List.count_eq_one_of_mem (nodup_keys_gen hotels)
    (hid_mem_keys_of_exists hotels hid hne hex)

theorem gen_mem_src (hotels : List HotelCsvRow) (e : String × HotelInfo)
    (he : e ∈ hotelsData hotels) :
    e.1 ≠ "" ∧ ∃ hr ∈ hotels, hr.tvil_hotel_id = e.1 := by
  rcases hotelsData_mem_src hotels [] e he with h | h
  · cases h
  · exact h

/-! ## Claim theorems -/

/-- C6 (confirmed): for a fixture of N pages in which every page but the
last has `links.next` pointing at the following page and the last has none,
the pagination loop performs exactly N fetches, the output is the
concatenation of the per-page extractions, and its size is the sum over
the pages of the records having attributes with a nonempty title and a
nonempty id. -/
theorem C6_pagination_terminates (ps : List PageJson) (plast : PageJson)
    (hps : ∀ p ∈ ps, p.next = true) (hlast : plast.next = false) :
    run_pagination ((ps ++ [plast]).map some) =
      (((ps ++ [plast]).map (fun p => extract_hotels_from_json p.data)).flatten,
        (ps ++ [plast]).length) ∧
    ((((ps ++ [plast]).map
        (fun p => extract_hotels_from_json p.data)).flatten)).length =
      ((ps ++ [plast]).map pageValidCount).sum := by
  refine ⟨?_, join_map_extract_length _⟩
  rw [run_pagination_good plast hlast ps hps]
  simp

/-- Witness for C6 on a two-page fixture. -/
theorem C6_pagination_terminates_witness :
    run_pagination (([pageA] ++ [pageB]).map some) =
      ((([pageA] ++ [pageB]).map
          (fun p => extract_hotels_from_json p.data)).flatten,
        ([pageA] ++ [pageB]).length) ∧
    (((([pageA] ++ [pageB]).map
        (fun p => extract_hotels_from_json p.data)).flatten)).length =
      (([pageA] ++ [pageB]).map pageValidCount).sum :=
  C6_pagination_terminates [pageA] pageB (by decide) (by decide)

/-- C7 (confirmed): if the fetch of page k+1 fails after k good pages that
all point at their successor, the loop stops at that failure — exactly k+1
fetches, regardless of anything that lies beyond — and the output keeps
exactly the rows accumulated from the k good pages. -/
theorem C7_pagination_abort : ∀ (ps : List PageJson)
    (rest : List (Option PageJson)), (∀ p ∈ ps, p.next = true) →
    run_pagination (ps.map some ++ none :: rest) =
      ((ps.map (fun p => extract_hotels_from_json p.data)).flatten,
        ps.length + 1) := by
  intro ps
  induction ps with
  | nil => intro rest _; simp [run_pagination]
  | cons p ps ih =>
    intro rest hps
    have hp : p.next = true := hps p (by simp)
    simp only [List.map_cons, List.cons_append, run_pagination, hp, if_true,
      List.append_eq]
    rw [ih rest (fun q hq => hps q (by simp [hq]))]
    simp

/-- Witness for C7: one good page, then a failed fetch, with a further
response beyond the failure that is never requested. -/
theorem C7_pagination_abort_witness :
    run_pagination ([pageA].map some ++ none :: [some pageB]) =
      (([pageA].map (fun p => extract_hotels_from_json p.data)).flatten, 2) :=
  C7_pagination_abort [pageA] [some pageB] (by decide)

/-- C2 (corrected): the claim's concrete example uses the spec's English
gloss of the pattern; the code matches only the source-language text, so
the literal input "Available 3 of 10" yields 0, not 10. -/
theorem C2_counterexample :
    ¬ (extract_all_rooms (some ("Available 3 of 10")) = 10) := by
  decide

/-- C2 (amended): `extract_all_rooms` returns the captured integer total
when the text contains the source-language availability pattern
"Свободны X из Y" (with the captured run maximal), returns 0 when the
pattern is absent and on `None` or empty input, and is total.  The spec's
example reads "Свободны 3 из 10" → 10 in the source language; "" → 0. -/
theorem C2_extract_total (s : String) (hocc : availOccurs s.data) :
    (∃ pre ds ms post,
        s.data = pre ++ litSvobodny ++ ds ++ litIz ++ ms ++ post ∧
        ds ≠ [] ∧ ds.all Char.isDigit = true ∧ ms ≠ [] ∧
        ms.all Char.isDigit = true ∧
        (∀ c r, post = c :: r → c.isDigit = false) ∧
        extract_all_rooms (some s) = natOfDigits ms) ∧
    (∀ u : String, ¬ availOccurs u.data → extract_all_rooms (some u) = 0) ∧
    extract_all_rooms none = 0 ∧
    extract_all_rooms (some ("Свободны 3 из 10")) = 10 ∧
    extract_all_rooms (some ("")) = 0 := by
  refine ⟨?_, ?_, rfl, by decide, rfl⟩
  · have hsome := searchAvail_complete s.data hocc
    cases hse : searchAvail s.data with
    | none => rw [hse] at hsome; simp at hsome
    | some ms =>
      obtain ⟨pre, ds, post, heq, hds, hdsd, hms, hmsd, hmax⟩ :=
        searchAvail_sound _ _ hse
      refine ⟨pre, ds, ms, post, ?_, hds, hdsd, hms, hmsd, hmax,
        extract_all_rooms_of_search s ms hse⟩
      simpa [List.append_assoc] using heq
  · intro u hno
    cases hse : searchAvail u.data with
    | none => exact extract_all_rooms_of_no_search u hse
    | some ms =>
      obtain ⟨pre, ds, post, heq, hds, hdsd, hms, hmsd, _⟩ :=
        searchAvail_sound _ _ hse
      exact absurd ⟨pre, ds, ms, post,
        by simpa [List.append_assoc] using heq, hds, hdsd, hms, hmsd⟩ hno

/-- Witness for C2 at a concrete input containing the pattern. -/
theorem C2_extract_total_witness :
    ∃ pre ds ms post,
      ("Свободны 2 из 7".data) =
        pre ++ litSvobodny ++ ds ++ litIz ++ ms ++ post ∧
      ds ≠ [] ∧ ds.all Char.isDigit = true ∧ ms ≠ [] ∧
      ms.all Char.isDigit = true ∧
      (∀ c r, post = c :: r → c.isDigit = false) ∧
      extract_all_rooms (some ("Свободны 2 из 7")) = natOfDigits ms :=
  (C2_extract_total ("Свободны 2 из 7")
    ⟨[], ['2'], ['7'], [], by decide, by decide, by decide, by decide,
      by decide⟩).1

/-- C3 (corrected): the claim's concrete example uses the spec's English
gloss of the pattern; the code matches only the source-language text, so
the literal input "2-bed room with balcony" yields "", not "2". -/
theorem C3_counterexample :
    ¬ (parse_room_capacity (some ("2-bed room with balcony")) = "2") := by
  decide

/-- C3 (amended): `parse_room_capacity` returns the captured digit string
when the text contains the source-language pattern "N-местный", returns
the empty string when the pattern is absent and on `None` or empty input,
and is total.  The spec's example reads "2-местный номер с балконом" → "2"
in the source language; "Standard room" (no pattern) → "". -/
theorem C3_extract_capacity (s : String) (hocc : capOccurs s.data) :
    (∃ pre ds post, s.data = pre ++ ds ++ litMestny ++ post ∧ ds ≠ [] ∧
        ds.all Char.isDigit = true ∧
        parse_room_capacity (some s) = String.mk ds) ∧
    (∀ u : String, ¬ capOccurs u.data → parse_room_capacity (some u) = "") ∧
    parse_room_capacity none = "" ∧
    parse_room_capacity (some ("2-местный номер с балконом")) = "2" ∧
    parse_room_capacity (some ("Standard room")) = "" := by
  refine ⟨?_, ?_, rfl, by decide, by decide⟩
  · have hsome := searchCap_complete s.data hocc
    cases hse : searchCap s.data with
    | none => rw [hse] at hsome; simp at hsome
    | some ds =>
      obtain ⟨pre, post, heq, hds, hdsd⟩ := searchCap_sound _ _ hse
      refine ⟨pre, ds, post, ?_, hds, hdsd,
        parse_room_capacity_of_search s ds hse⟩
      simpa [List.append_assoc] using heq
  · intro u hno
    cases hse : searchCap u.data with
    | none => exact parse_room_capacity_of_no_search u hse
    | some ds =>
      obtain ⟨pre, post, heq, hds, hdsd⟩ := searchCap_sound _ _ hse
      exact absurd ⟨pre, ds, post,
        by simpa [List.append_assoc] using heq, hds, hdsd⟩ hno

/-- Witness for C3 at a concrete input containing the pattern. -/
theorem C3_extract_capacity_witness :
    ∃ pre ds post,
      ("4-местный".data) = pre ++ ds ++ litMestny ++ post ∧ ds ≠ [] ∧
      ds.all Char.isDigit = true ∧
      parse_room_capacity (some ("4-местный")) = String.mk ds :=
  (C3_extract_capacity ("4-местный")
    ⟨[], ['4'], [], by decide, by decide, by decide⟩).1

/-- C4 (corrected): the claim asserts that the placeholder row zeroes
`room_capacity` to the string "0"; the code writes the empty string there.
Concretely, for a calculation response whose `data` array holds only the
hotel element, the emitted row list does not have `room_capacity = "0"`. -/
theorem C4_counterexample :
    ¬ ((extract_room_data
        (some [{ id := some ("H1"), total_price := none, free_count := none,
                 text := none }]) [] "H1" "u").map
        (fun r => r.room_capacity) = ["0"]) := by
  decide

/-- C4 (amended): for every calculation response whose `data` array has
exactly one element, the collector emits exactly one placeholder row whose
`room_name` and `room_id` are empty, whose `free_rooms`, `all_rooms` and
`price` are "0", and whose `room_capacity` is the empty string; its
`tvil_hotel_id` is the hotel element's id when present, else the input
hotel id. -/
theorem C4_placeholder_row (item0 : CalcItem)
    (descriptions : List (String × String)) (hotel_id hotel_url : String) :
    extract_room_data (some [item0]) descriptions hotel_id hotel_url =
      [{ tvil_hotel_id := item0.id.getD hotel_id
         room_name := ""
         room_id := ""
         free_rooms := "0"
         all_rooms := "0"
         room_capacity := ""
         price := "0"
         url := hotel_url }] := rfl

/-- C5 (corrected): the claim states the hotels CSV header order is
`tvil_hotel_id,name,address,city,url,rooms_number`; the `fieldnames` list
of `_save_to_csv` is not that list. -/
theorem C5_counterexample :
    hotels_fieldnames ≠
      ["tvil_hotel_id", "name", "address", "city", "url", "rooms_number"] := by
  decide

/-- C5 (amended): the hotels CSV written by the Catalog Harvester always has
the header row with columns in exactly the order
`city,tvil_hotel_id,name,address,url,rooms_number`. -/
theorem C5_hotels_header :
    hotels_csv_header = "city,tvil_hotel_id,name,address,url,rooms_number" ∧
    hotels_fieldnames =
      ["city", "tvil_hotel_id", "name", "address", "url", "rooms_number"] := by
  exact ⟨rfl, rfl⟩

/-- C1 (confirmed): every output row's aggregates are the fold of its
matching rooms rows: `free_rooms_amount` is the sum of the parsed free
counts (non-numeric as 0), `max_capacity` sums free times capacity over
rows where both are positive, `min_price` is the two-decimal formatting of
the least price among rows with positive free count and positive price (or
"" when there is none), and `available_rooms_percent` is
`round(free / declared * 100, 2)` when the declared count is positive, else
0.  The last conjunct is the spec's concrete example. -/
theorem C1_aggregator_fold (hotels : List HotelCsvRow) (rooms : List RoomRow)
    (dateStr : String) (s : DailyStatistic)
    (hs : s ∈ generate_statistics hotels rooms dateStr) :
    s.free_rooms_amount =
      ((rooms.filter (fun r => r.tvil_hotel_id == s.tvil_hotel_id)).map
        rowFree).sum ∧
    s.max_capacity =
      ((rooms.filter (fun r => r.tvil_hotel_id == s.tvil_hotel_id)).map
        rowCapContrib).sum ∧
    ((s.min_price = "" ∧
        (rooms.filter
          (fun r => r.tvil_hotel_id == s.tvil_hotel_id)).filterMap
          rowPriceOpt = []) ∨
      (∃ m, m ∈ (rooms.filter
            (fun r => r.tvil_hotel_id == s.tvil_hotel_id)).filterMap
            rowPriceOpt ∧
        (∀ x ∈ (rooms.filter
            (fun r => r.tvil_hotel_id == s.tvil_hotel_id)).filterMap
            rowPriceOpt, m ≤ x) ∧
        s.min_price = format2 m)) ∧
    s.available_rooms_percent =
      (if 0 < s.rooms_num then
        roundTo2 ((s.free_rooms_amount : ℚ) / (s.rooms_num : ℚ) * 100)
      else 0) ∧
    generate_statistics [⟨"H1", "Hotel One", "10"⟩]
        [⟨"H1", "2", "3", "100"⟩, ⟨"H1", "0", "4", "50"⟩] "2025-06-01" =
      [⟨"H1", "Hotel One", 10, 2, 6, 20, "2025-06-01", "100.00"⟩] := by
  unfold generate_statistics at hs
  obtain ⟨e, he, rfl⟩ := List.mem_map.mp hs
  have hid_ne : e.1 ≠ "" := (gen_mem_src hotels e he).1
  have hST := statsFor_eq rooms e.1 hid_ne
  simp only [statOf_id, statOf_free, statOf_max, statOf_min, statOf_rooms_num,
    statOf_percent]
  refine ⟨?_, ?_, ?_, by trivial, by with_unfolding_all decide⟩
  · rw [hST, foldStats_free]
    show (0 : Int) + _ = _
    rw [zero_add]
  · rw [hST, foldStats_cap]
    show (0 : Int) + _ = _
    rw [zero_add]
  · have hmin : ((alookup e.1 (roomsStatsMap rooms)).getD
        RoomStats.init).min_price =
        ((rooms.filter (fun r => r.tvil_hotel_id == e.1)).filterMap
          rowPriceOpt).foldl minPriceUpdate none := by
      rw [hST, foldStats_min]
      rfl
    cases hM : ((rooms.filter (fun r => r.tvil_hotel_id == e.1)).filterMap
        rowPriceOpt).foldl minPriceUpdate none with
    | none =>
      left
      rw [hmin, hM]
      exact ⟨by trivial, ((foldMin_eq_none _ _).mp hM).2⟩
    | some m =>
      right
      obtain ⟨hmem, hbound, -⟩ := foldMin_some _ _ _ hM
      rcases hmem with hm | hm
      · refine ⟨m, hm, hbound, ?_⟩
        rw [hmin, hM]
      · cases hm

/-- Witness for C1, applying the fold characterisation at the spec's own
example tables and reading off the concrete row. -/
theorem C1_aggregator_fold_witness :
    generate_statistics [⟨"H1", "Hotel One", "10"⟩]
        [⟨"H1", "2", "3", "100"⟩, ⟨"H1", "0", "4", "50"⟩] "2025-06-01" =
      [⟨"H1", "Hotel One", 10, 2, 6, 20, "2025-06-01", "100.00"⟩] :=
  (C1_aggregator_fold [⟨"H1", "Hotel One", "10"⟩]
    [⟨"H1", "2", "3", "100"⟩, ⟨"H1", "0", "4", "50"⟩] "2025-06-01"
    ⟨"H1", "Hotel One", 10, 2, 6, 20, "2025-06-01", "100.00"⟩
    (by with_unfolding_all decide)).2.2.2.2

/-- C8 (confirmed): the catalog drives the output.  Every output row's id is
a nonempty id of some catalog row; every nonempty catalog id yields exactly
one output row; ids only present in the rooms table yield nothing (their
rows are not in the output, by the first conjunct); and a catalog hotel
with no matching rooms rows still yields a row with zeroed aggregates and
an empty minimum price. -/
theorem C8_catalog_driver (hotels : List HotelCsvRow) (rooms : List RoomRow)
    (dateStr : String) :
    (∀ s ∈ generate_statistics hotels rooms dateStr,
        s.tvil_hotel_id ≠ "" ∧
          ∃ hr ∈ hotels, hr.tvil_hotel_id = s.tvil_hotel_id) ∧
    (∀ hid : String, hid ≠ "" → (∃ hr ∈ hotels, hr.tvil_hotel_id = hid) →
        ((generate_statistics hotels rooms dateStr).filter
            (fun s => s.tvil_hotel_id == hid)).length = 1) ∧
    (∀ s ∈ generate_statistics hotels rooms dateStr,
        (∀ rr ∈ rooms, rr.tvil_hotel_id ≠ s.tvil_hotel_id) →
        s.free_rooms_amount = 0 ∧ s.max_capacity = 0 ∧
          s.available_rooms_percent = 0 ∧ s.min_price = "") := by
  refine ⟨?_, ?_, ?_⟩
  · intro s hs
    unfold generate_statistics at hs
    obtain ⟨e, he, rfl⟩ := List.mem_map.mp hs
    exact gen_mem_src hotels e he
  · intro hid hne hex
    exact gen_filter_length_one hotels rooms dateStr hid hne hex
  · intro s hs hnone
    unfold generate_statistics at hs
    obtain ⟨e, he, rfl⟩ := List.mem_map.mp hs
    have hid_ne : e.1 ≠ "" := (gen_mem_src hotels e he).1
    simp only [statOf_id] at hnone
    have hfil : rooms.filter (fun r => r.tvil_hotel_id == e.1) = [] := by
      rw [List.filter_eq_nil_iff]
      intro rr hm
      simpa using hnone rr hm
    have hST : (alookup e.1 (roomsStatsMap rooms)).getD RoomStats.init =
        RoomStats.init := by
      rw [statsFor_eq rooms e.1 hid_ne, hfil]
      rfl
    simp only [statOf_free, statOf_max, statOf_min, statOf_percent]
    rw [hST]
    refine ⟨rfl, rfl, ?_, rfl⟩
    split_ifs with h0
    · have hz : ((RoomStats.init.free_rooms_amount : Int) : ℚ) /
          (pyIntD e.2.rooms_number : ℚ) * 100 = 0 := by
        show ((0 : Int) : ℚ) / _ * 100 = 0
        simp
      rw [hz, roundTo2_zero]
    · rfl

/-- Witness for C8 on a one-hotel catalog with an empty rooms table. -/
theorem C8_catalog_driver_witness :
    ((generate_statistics [⟨"H9", "Lone", "4"⟩] [] "2025-06-02").filter
        (fun s => s.tvil_hotel_id == "H9")).length = 1 :=
  (C8_catalog_driver [⟨"H9", "Lone", "4"⟩] [] "2025-06-02").2.1 "H9"
    (by decide) ⟨⟨"H9", "Lone", "4"⟩, by decide, rfl⟩

/-- C10 (confirmed, implicit): hotel rows and room rows with an empty
`tvil_hotel_id` contribute nothing to the output; a nonempty id occurring
in several hotel rows produces exactly one output row, and that row takes
`name` and the parsed declared room count from the last such row in file
order. -/
theorem C10_duplicates_empty_ids (hotels : List HotelCsvRow)
    (rooms : List RoomRow) (dateStr : String) (hid : String)
    (hne : hid ≠ "") :
    generate_statistics (hotels.filter (fun r => !(r.tvil_hotel_id == "")))
        rooms dateStr = generate_statistics hotels rooms dateStr ∧
    generate_statistics hotels
        (rooms.filter (fun r => !(r.tvil_hotel_id == ""))) dateStr =
      generate_statistics hotels rooms dateStr ∧
    ((∃ hr ∈ hotels, hr.tvil_hotel_id = hid) →
      ((generate_statistics hotels rooms dateStr).filter
          (fun s => s.tvil_hotel_id == hid)).length = 1) ∧
    (∀ s ∈ generate_statistics hotels rooms dateStr, s.tvil_hotel_id = hid →
      ∃ hr, (hotels.filter (fun r => r.tvil_hotel_id == hid)).getLast? =
          some hr ∧ s.name = hr.name ∧
        s.rooms_num = pyIntD hr.rooms_number) := by
  refine ⟨?_, ?_, ?_, ?_⟩
  · unfold generate_statistics hotelsData
    rw [foldl_filter_skip stepHotels (fun r => !(r.tvil_hotel_id == ""))
      (fun acc a ha => by
        have h2 : a.tvil_hotel_id = "" := by simpa using ha
        simp [stepHotels, h2]) hotels []]
  · unfold generate_statistics roomsStatsMap
    rw [foldl_filter_skip stepRooms (fun r => !(r.tvil_hotel_id == ""))
      (fun acc a ha => by
        have h2 : a.tvil_hotel_id = "" := by simpa using ha
        simp [stepRooms, h2]) rooms []]
  · intro hex
    exact gen_filter_length_one hotels rooms dateStr hid hne hex
  · intro s hs hsid
    unfold generate_statistics at hs
    obtain ⟨e, he, rfl⟩ := List.mem_map.mp hs
    have heid : e.1 = hid := hsid
    have hal : alookup e.1 (hotelsData hotels) = some e.2 :=
      alookup_eq_of_mem_nodup _ e (nodup_keys_gen hotels) he
    rw [heid] at hal
    unfold hotelsData at hal
    rw [hotelsData_fold hid hne hotels []] at hal
    cases hg : (hotels.filter (fun r => r.tvil_hotel_id == hid)).getLast? with
    | none =>
      rw [hg] at hal
      have hx : (none : Option HotelInfo) = some e.2 := hal
      cases hx
    | some hr =>
      rw [hg] at hal
      have hx : some ({ name := hr.name, rooms_number := hr.rooms_number } :
          HotelInfo) = some e.2 := hal
      injection hx with hx
      refine ⟨hr, rfl, ?_, ?_⟩
      · show e.2.name = hr.name
        rw [← hx]
      · show pyIntD e.2.rooms_number = pyIntD hr.rooms_number
        rw [← hx]

/-- Witness for C10 on a catalog with a duplicated id: the emitted row takes
name and declared count from the second (last) duplicate. -/
theorem C10_duplicates_empty_ids_witness :
    ∃ hr, (([⟨"H1", "First", "5"⟩, ⟨"H1", "Second", "8"⟩] :
        List HotelCsvRow).filter
        (fun r => r.tvil_hotel_id == "H1")).getLast? = some hr ∧
      (⟨"H1", "Second", 8, 0, 0, 0, "2025-06-03", ""⟩ :
        DailyStatistic).name = hr.name ∧
      (⟨"H1", "Second", 8, 0, 0, 0, "2025-06-03", ""⟩ :
        DailyStatistic).rooms_num = pyIntD hr.rooms_number :=
  (C10_duplicates_empty_ids [⟨"H1", "First", "5"⟩, ⟨"H1", "Second", "8"⟩] []
    "2025-06-03" "H1" (by decide)).2.2.2
    ⟨"H1", "Second", 8, 0, 0, 0, "2025-06-03", ""⟩
    (by with_unfolding_all decide) rfl

/-- C9 (confirmed): the Statistics Aggregator is deterministic over its
inputs: two runs on identical hotel and room tables for the same run date
produce identical output rows, in the same order and with the same
values. -/
theorem C9_deterministic (h1 h2 : List HotelCsvRow) (r1 r2 : List RoomRow)
    (d : String) (hh : h1 = h2) (hr : r1 = r2) :
    generate_statistics h1 r1 d = generate_statistics h2 r2 d := by
  subst hh; subst hr; rfl

/-- Witness for C9 at a concrete pair of identical inputs. -/
theorem C9_deterministic_witness :
    generate_statistics [⟨"H1", "N", "10"⟩] [⟨"H1", "2", "3", "100"⟩]
        "2025-01-01" =
      generate_statistics [⟨"H1", "N", "10"⟩] [⟨"H1", "2", "3", "100"⟩]
        "2025-01-01" :=
  C9_deterministic _ _ _ _ _ rfl rfl

end Tvil
